import Mathlib

/-!
Shallow embedding of the packet ingestion / sequencing / priority dispatch
pipeline of the satellite-visibility repository (src/unnamed/part_001):
the Packet type with its comparison operator, the lock-free SPSC ring
buffer, the reordering buffer, and the priority router.

Modelling conventions:
* The pipeline logic is modelled sequentially: every public operation runs
  under the component's mutex in the source, so an interleaving is a
  sequence of whole operations.  `cv_.wait_until` inside `getNext` is
  resolved by the state at the call (no concurrent insert during one call):
  the wait returns early exactly when its predicate
  `!running_ || buffer_.count(next_expected_seq_)` holds, and times out
  otherwise; real-time durations themselves are not modelled.
* `next_expected_seq_` is a C++ `uint64_t` incremented by the code, and its
  start value is an arbitrary caller-chosen `uint64_t`, so its wraparound
  at 2^64 is reachable and is modelled (`% u64Mod`).  The statistics
  counters (`total_received_` etc.) start at zero and only ever grow by 1,
  so their 64-bit wraparound is outside the modelled regime; they are
  unbounded naturals here.
* `std::unordered_map<uint64_t, Packet>` is modelled as an association
  list with unique keys; the code never iterates the map, so its bucket
  order is irrelevant.
* `Packet::arrival_time` (a steady-clock reading) and
  `ReorderingBuffer::last_insert_time_` are never read by the pipeline
  logic and are omitted from the model.
-/

namespace SatVis

/-- Modulus of the C++ type `uint64_t`. -/
def u64Mod : Nat := 2 ^ 64

/-- Traffic classes of `enum class Priority : uint8_t`. -/
inductive Priority where
  | REAL_TIME
  | STREAMING
  | BULK
  | CONTROL
deriving DecidableEq

/-- Numeric value of the C++ enum constant
(`REAL_TIME = 0, STREAMING = 1, BULK = 2, CONTROL = 3`). -/
def Priority.code : Priority → Nat
  | .REAL_TIME => 0
  | .STREAMING => 1
  | .BULK => 2
  | .CONTROL => 3

/-- Dispatch rank used in statements about the router contract
(CONTROL dispatched first, then REAL_TIME, STREAMING, BULK). -/
def Priority.rank : Priority → Nat
  | .CONTROL => 0
  | .REAL_TIME => 1
  | .STREAMING => 2
  | .BULK => 3

/-- The `struct Packet` of the source.  Identifier fields are naturals
(`uint64_t` / `uint32_t` in the source); the payload is a byte list. -/
structure Packet where
  sequence_number : Nat
  priority : Priority
  source_satellite_id : Nat
  destination_id : Nat
  payload : List Nat
deriving DecidableEq

/-- `Packet::operator>`: used through `std::greater` by the router's
priority queues.  Transcribed branch for branch from the source. -/
def Packet.gtOp (a b : Packet) : Bool :=
  if a.priority ≠ b.priority then
    if a.priority = Priority.CONTROL then false
    else if b.priority = Priority.CONTROL then true
    else decide (a.priority.code > b.priority.code)
  else decide (a.sequence_number > b.sequence_number)

/-- Dispatch preorder used to state the router's ordering contract:
`a` is dequeued no later than `b`. -/
def dispatchLE (a b : Packet) : Prop :=
  a.priority.rank < b.priority.rank ∨
    (a.priority.rank = b.priority.rank ∧ a.sequence_number ≤ b.sequence_number)

/-- Lookup in the model of `std::unordered_map<uint64_t, Packet>`. -/
def mapLookup : List (Nat × Packet) → Nat → Option Packet
  | [], _ => none
  | (k', v) :: rest, k => if k' = k then some v else mapLookup rest k

/-- Model of `buffer_.count(k)` (0 or 1 for `unordered_map`). -/
def mapContains (m : List (Nat × Packet)) (k : Nat) : Bool :=
  (mapLookup m k).isSome

/-- Model of `buffer_[k] = v`: overwrite the entry if the key is present,
add an entry otherwise. -/
def mapStore : List (Nat × Packet) → Nat → Packet → List (Nat × Packet)
  | [], k, v => [(k, v)]
  | (k', v') :: rest, k, v =>
      if k' = k then (k, v) :: rest else (k', v') :: mapStore rest k v

/-- Model of `buffer_.erase(it)` for the entry found under key `k`. -/
def mapErase : List (Nat × Packet) → Nat → List (Nat × Packet)
  | [], _ => []
  | (k', v') :: rest, k => if k' = k then rest else (k', v') :: mapErase rest k

/-- Keys of the pending map. -/
def mapKeys (m : List (Nat × Packet)) : List Nat := m.map Prod.fst

/-- Every pending entry is keyed by its packet's own sequence number.
This holds for every reachable buffer because `insert` stores
`buffer_[pkt.sequence_number] = pkt`. -/
def keyMatch (m : List (Nat × Packet)) : Prop :=
  ∀ kp ∈ m, (Prod.snd kp).sequence_number = Prod.fst kp

/-- State of `class ReorderingBuffer`.  The mutex, the condition variable
and the timeout duration have no state-level content in the sequential
model (see the module comment). -/
structure ReorderingBuffer where
  buffer : List (Nat × Packet)
  next_expected_seq : Nat
  running : Bool
  total_received : Nat
  total_released : Nat
  total_gaps : Nat
deriving DecidableEq

/-- Constructor `ReorderingBuffer(start_seq, timeout_ms)`; `start_seq` is a
`uint64_t` value. -/
def ReorderingBuffer.init (start_seq : Nat) : ReorderingBuffer :=
  { buffer := []
    next_expected_seq := start_seq % u64Mod
    running := true
    total_received := 0
    total_released := 0
    total_gaps := 0 }

/-- `ReorderingBuffer::insert`: count the arrival, store the packet under
its sequence number (`buffer_[pkt.sequence_number] = pkt`), notify the
consumer (no state content). -/
def ReorderingBuffer.insert (rb : ReorderingBuffer) (pkt : Packet) : ReorderingBuffer :=
  { rb with
    total_received := rb.total_received + 1
    buffer := mapStore rb.buffer pkt.sequence_number pkt }

/-- `ReorderingBuffer::getNext` in the sequential model.  After the wait:
if `!running_ && buffer_.empty()` return nothing; else if the expected
sequence number is pending, release it; else record a gap, advance, and
release the packet under the new expected number if pending (the source's
`while` loop returns inside its first iteration). -/
def ReorderingBuffer.getNext (rb : ReorderingBuffer) : Option Packet × ReorderingBuffer :=
  if rb.running = false ∧ rb.buffer = [] then
    (none, rb)
  else
    match mapLookup rb.buffer rb.next_expected_seq with
    | some pkt =>
        (some pkt,
          { rb with
            buffer := mapErase rb.buffer rb.next_expected_seq
            next_expected_seq := (rb.next_expected_seq + 1) % u64Mod
            total_released := rb.total_released + 1 })
    | none =>
        match mapLookup rb.buffer ((rb.next_expected_seq + 1) % u64Mod) with
        | some pkt =>
            (some pkt,
              { rb with
                buffer := mapErase rb.buffer ((rb.next_expected_seq + 1) % u64Mod)
                next_expected_seq := ((rb.next_expected_seq + 1) % u64Mod + 1) % u64Mod
                total_released := rb.total_released + 1
                total_gaps := rb.total_gaps + 1 })
        | none =>
            (none,
              { rb with
                next_expected_seq := (rb.next_expected_seq + 1) % u64Mod
                total_gaps := rb.total_gaps + 1 })

/-- Whether the per-call deadline of `getNext` elapses, in the sequential
model: `cv_.wait_until` returns early iff its predicate
`!running_ || buffer_.count(next_expected_seq_)` holds, so the deadline
elapses iff the buffer is running and the expected number is not pending. -/
def ReorderingBuffer.deadlineElapses (rb : ReorderingBuffer) : Bool :=
  rb.running && !(mapContains rb.buffer rb.next_expected_seq)

/-- `ReorderingBuffer::stop`. -/
def ReorderingBuffer.stop (rb : ReorderingBuffer) : ReorderingBuffer :=
  { rb with running := false }

/-- One operation of the reordering buffer's public interface. -/
inductive RBOp where
  | opInsert (pkt : Packet)
  | opGetNext
  | opStop
deriving DecidableEq

/-- Effect of one operation: the successor state and the packet released
by the operation, if any. -/
def ReorderingBuffer.step (rb : ReorderingBuffer) : RBOp → ReorderingBuffer × Option Packet
  | .opInsert pkt => (rb.insert pkt, none)
  | .opGetNext => ((rb.getNext).2, (rb.getNext).1)
  | .opStop => (rb.stop, none)

/-- Run a sequence of operations, collecting every released packet. -/
def ReorderingBuffer.run : ReorderingBuffer → List RBOp → ReorderingBuffer × List Packet
  | rb, [] => (rb, [])
  | rb, op :: ops =>
      let s := rb.step op
      let r := s.1.run ops
      (r.1, s.2.toList ++ r.2)

/-- Iterate `getNext` `n` times, collecting the `n` results in order. -/
def ReorderingBuffer.getNextIter : ReorderingBuffer → Nat → List (Option Packet) × ReorderingBuffer
  | rb, 0 => ([], rb)
  | rb, n + 1 =>
      let s := rb.getNext
      let r := s.2.getNextIter n
      (s.1 :: r.1, r.2)

/-- Insert a list of packets in order. -/
def ReorderingBuffer.insertAll (rb : ReorderingBuffer) (ps : List Packet) : ReorderingBuffer :=
  ps.foldl ReorderingBuffer.insert rb

/-- State of `SPSCRingBuffer<T, Capacity>`: the two indices and the slot
array (`std::array<T, Capacity>`, default-initialized). -/
structure SPSCRingBuffer (T : Type) where
  capacity : Nat
  head : Nat
  tail : Nat
  buffer : Nat → T

/-- Constructor `SPSCRingBuffer() : head_(0), tail_(0)`.  The source
requires `Capacity` to be a power of two (`static_assert`). -/
def SPSCRingBuffer.init (T : Type) [Inhabited T] (capacity : Nat) : SPSCRingBuffer T :=
  { capacity := capacity, head := 0, tail := 0, buffer := fun _ => default }

/-- `SPSCRingBuffer::tryPush`: compute `(head + 1) & (Capacity - 1)`; fail
if it equals the consumer index, else store the item and publish the new
producer index. -/
def SPSCRingBuffer.tryPush {T : Type} (rb : SPSCRingBuffer T) (item : T) :
    Bool × SPSCRingBuffer T :=
  let nxt := (rb.head + 1) &&& (rb.capacity - 1)
  if nxt = rb.tail then (false, rb)
  else
    (true,
      { rb with
        buffer := fun i => if i = rb.head then item else rb.buffer i
        head := nxt })

/-- `SPSCRingBuffer::tryPop`: return nothing if the indices are equal,
else take the item at the consumer index and advance it. -/
def SPSCRingBuffer.tryPop {T : Type} (rb : SPSCRingBuffer T) :
    Option T × SPSCRingBuffer T :=
  if rb.tail = rb.head then (none, rb)
  else (some (rb.buffer rb.tail), { rb with tail := (rb.tail + 1) &&& (rb.capacity - 1) })

/-- Attempt a list of pushes in order, collecting each attempt's result. -/
def SPSCRingBuffer.pushList {T : Type} : SPSCRingBuffer T → List T → SPSCRingBuffer T × List Bool
  | rb, [] => (rb, [])
  | rb, x :: xs =>
      let s := rb.tryPush x
      let r := s.2.pushList xs
      (r.1, s.1 :: r.2)

/-- Length of the fixed mutex array
`std::array<std::mutex, 16> queue_mutexes_` of the router. -/
def queueMutexCount : Nat := 16

/-- Queue (and mutex) index selected for a destination:
`destination_id % queues_.size()`. -/
def lockIndexOf (num_queues dest : Nat) : Nat := dest % num_queues

/-- State of `class PriorityRouter`.  Each queue is the multiset of its
packets; `dequeue` extracts the top of the `std::priority_queue` order. -/
structure PriorityRouter where
  num_queues : Nat
  queues : Nat → List Packet
  queue_sizes : Nat → Nat
  total_routed : Nat

/-- Constructor `PriorityRouter(num_output_queues)`. -/
def PriorityRouter.init (num_output_queues : Nat) : PriorityRouter :=
  { num_queues := num_output_queues
    queues := fun _ => []
    queue_sizes := fun _ => 0
    total_routed := 0 }

/-- `PriorityRouter::route`: select the queue by destination, add the
packet, bump the counters. -/
def PriorityRouter.route (r : PriorityRouter) (pkt : Packet) : PriorityRouter :=
  let idx := lockIndexOf r.num_queues pkt.destination_id
  { r with
    queues := fun i => if i = idx then pkt :: r.queues i else r.queues i
    queue_sizes := fun i => if i = idx then r.queue_sizes i + 1 else r.queue_sizes i
    total_routed := r.total_routed + 1 }

/-- Top extraction of
`std::priority_queue<Packet, std::vector<Packet>, std::greater<Packet>>`:
remove a minimal element with respect to `Packet.gtOp`.  Among packets the
ordering treats as equivalent the C++ heap order is unspecified; the model
takes the leftmost minimal element. -/
def pqExtract : List Packet → Option (Packet × List Packet)
  | [] => none
  | p :: rest =>
      match pqExtract rest with
      | none => some (p, [])
      | some (m, rest') =>
          if Packet.gtOp p m then some (m, p :: rest') else some (p, rest)

/-- `PriorityRouter::dequeue`: nothing if the queue is empty, else remove
and return the top element and decrement the per-queue counter. -/
def PriorityRouter.dequeue (r : PriorityRouter) (queue_idx : Nat) :
    Option Packet × PriorityRouter :=
  match pqExtract (r.queues queue_idx) with
  | none => (none, r)
  | some (m, rest) =>
      (some m,
        { r with
          queues := fun i => if i = queue_idx then rest else r.queues i
          queue_sizes := fun i => if i = queue_idx then r.queue_sizes i - 1 else r.queue_sizes i })

/-- Iterate `dequeue` on one queue, collecting the results in order. -/
def PriorityRouter.dequeueIter : PriorityRouter → Nat → Nat → List (Option Packet) × PriorityRouter
  | r, _, 0 => ([], r)
  | r, idx, n + 1 =>
      let s := r.dequeue idx
      let t := s.2.dequeueIter idx n
      (s.1 :: t.1, t.2)

/-- Route a list of packets in order. -/
def PriorityRouter.routeAll (r : PriorityRouter) (ps : List Packet) : PriorityRouter :=
  ps.foldl PriorityRouter.route r

/-- Packet constructor for concrete scenarios. -/
def mkPacket (seq : Nat) (pr : Priority) (dest : Nat) : Packet :=
  { sequence_number := seq
    priority := pr
    source_satellite_id := 1
    destination_id := dest
    payload := [] }

/-- Packet with the largest `uint64_t` sequence number,
18446744073709551615 = 2^64 - 1 (written as a literal so that kernel
reduction stays on the binary fast path). -/
def dupPacket : Packet := mkPacket 18446744073709551615 Priority.BULK 0

/-- Operation sequence that makes `next_expected_seq` wrap all the way
around the 64-bit space: release sequence number 2^64 - 1, time out
2^64 - 1 times (each gap advances the wrapped counter by one), then
insert and release sequence number 2^64 - 1 a second time. -/
def dupTrace : List RBOp :=
  [RBOp.opInsert dupPacket, RBOp.opGetNext] ++
    List.replicate 18446744073709551615 RBOp.opGetNext ++
    [RBOp.opInsert dupPacket, RBOp.opGetNext]

/-- State of the buffer after the first two operations of `dupTrace`
(used to phase the wraparound computation). -/
def wrapMid : ReorderingBuffer :=
  { buffer := []
    next_expected_seq := 0
    running := true
    total_received := 1
    total_released := 1
    total_gaps := 0 }

/-- State of the buffer after the first two operations of `dupTrace` and
the 2^64 - 1 timed-out `getNext` calls that follow them. -/
def wrapEnd : ReorderingBuffer :=
  { buffer := []
    next_expected_seq := 18446744073709551615
    running := true
    total_received := 1
    total_released := 1
    total_gaps := 18446744073709551615 }

end SatVis

namespace SatVis

/-! ### Association-map lemmas -/

lemma mapLookup_nil (k : Nat) : mapLookup [] k = none := rfl

lemma mapLookup_mem : ∀ {m : List (Nat × Packet)} {k : Nat} {p : Packet},
    mapLookup m k = some p → (k, p) ∈ m := by
  intro m
  induction m with
  | nil => intro k p h; simp [mapLookup] at h
  | cons kv rest ih =>
      intro k p h
      obtain ⟨k', v⟩ := kv
      by_cases hk : k' = k
      · subst hk
        simp [mapLookup] at h
        subst h
        exact List.mem_cons_self _ _
      · simp only [mapLookup, if_neg hk] at h
        exact List.mem_cons_of_mem _ (ih h)

lemma mapContains_iff_mem_keys {m : List (Nat × Packet)} {k : Nat} :
    mapContains m k = true ↔ k ∈ mapKeys m := by
  induction m with
  | nil => simp [mapContains, mapLookup, mapKeys]
  | cons kv rest ih =>
      obtain ⟨k', v⟩ := kv
      by_cases hk : k' = k
      · subst hk
        simp [mapContains, mapLookup, mapKeys]
      · simp only [mapContains, mapLookup, if_neg hk, mapKeys, List.map_cons,
          List.mem_cons] at *
        constructor
        · intro h; exact Or.inr (ih.mp h)
        · intro h
          rcases h with h | h
          · exact absurd h.symm hk
          · exact ih.mpr h

lemma keyMatch_nil : keyMatch [] := by
  intro kp h; simp at h

lemma keyMatch_cons {kv : Nat × Packet} {rest : List (Nat × Packet)}
    (h : keyMatch (kv :: rest)) : keyMatch rest :=
  fun q hq => h q (List.mem_cons_of_mem _ hq)

lemma keyMatch_store : ∀ {m : List (Nat × Packet)}, keyMatch m → ∀ p : Packet,
    keyMatch (mapStore m p.sequence_number p) := by
  intro m
  induction m with
  | nil =>
      intro _ p kp hm
      simp only [mapStore, List.mem_singleton] at hm
      subst hm; rfl
  | cons kv rest ih =>
      intro h p kp hm
      obtain ⟨k', v'⟩ := kv
      by_cases hk : k' = p.sequence_number
      · simp only [mapStore, if_pos hk] at hm
        rcases List.mem_cons.mp hm with hm | hm
        · subst hm; rfl
        · exact h _ (List.mem_cons_of_mem _ hm)
      · simp only [mapStore, if_neg hk] at hm
        rcases List.mem_cons.mp hm with hm | hm
        · subst hm; exact h _ (List.mem_cons_self _ _)
        · exact ih (keyMatch_cons h) p _ hm

lemma keyMatch_erase : ∀ {m : List (Nat × Packet)}, keyMatch m → ∀ k : Nat,
    keyMatch (mapErase m k) := by
  intro m
  induction m with
  | nil => intro _ k; simp only [mapErase]; exact keyMatch_nil
  | cons kv rest ih =>
      intro h k kp hm
      obtain ⟨k', v'⟩ := kv
      by_cases hk : k' = k
      · simp only [mapErase, if_pos hk] at hm
        exact h _ (List.mem_cons_of_mem _ hm)
      · simp only [mapErase, if_neg hk] at hm
        rcases List.mem_cons.mp hm with hm | hm
        · subst hm; exact h _ (List.mem_cons_self _ _)
        · exact ih (keyMatch_cons h) k _ hm

lemma mapKeys_erase : ∀ (m : List (Nat × Packet)) (k : Nat),
    mapKeys (mapErase m k) = (mapKeys m).erase k := by
  intro m
  induction m with
  | nil => intro k; simp [mapErase, mapKeys]
  | cons kv rest ih =>
      intro k
      obtain ⟨k', v'⟩ := kv
      by_cases hk : k' = k
      · subst hk
        simp [mapErase, mapKeys, List.erase_cons_head]
      · have ih' := ih k
        simp only [mapKeys] at ih'
        simp only [mapErase, if_neg hk, mapKeys, List.map_cons]
        rw [List.erase_cons_tail, ih']
        simp [hk]

lemma mapKeys_store_not_mem : ∀ {m : List (Nat × Packet)} {k : Nat},
    k ∉ mapKeys m → ∀ v : Packet, mapKeys (mapStore m k v) = mapKeys m ++ [k] := by
  intro m
  induction m with
  | nil => intro k _ v; simp [mapStore, mapKeys]
  | cons kv rest ih =>
      intro k hk v
      obtain ⟨k', v'⟩ := kv
      simp only [mapKeys, List.map_cons, List.mem_cons] at hk
      push_neg at hk
      have ih' := ih hk.2 v
      simp only [mapKeys] at ih'
      simp only [mapStore, if_neg (Ne.symm hk.1), mapKeys, List.map_cons,
        List.cons_append]
      rw [ih']

lemma mapLookup_store_self : ∀ (m : List (Nat × Packet)) (k : Nat) (v : Packet),
    mapLookup (mapStore m k v) k = some v := by
  intro m
  induction m with
  | nil => intro k v; simp [mapStore, mapLookup]
  | cons kv rest ih =>
      intro k v
      obtain ⟨k', v'⟩ := kv
      by_cases hk : k' = k
      · simp [mapStore, if_pos hk, mapLookup]
      · simp only [mapStore, if_neg hk, mapLookup, if_neg hk]
        exact ih k v

lemma mapLookup_store_ne : ∀ (m : List (Nat × Packet)) (k : Nat) (v : Packet) (k' : Nat),
    k' ≠ k → mapLookup (mapStore m k v) k' = mapLookup m k' := by
  intro m
  induction m with
  | nil => intro k v k' h; simp [mapStore, mapLookup, Ne.symm h]
  | cons kv rest ih =>
      intro k v k' h
      obtain ⟨a, b⟩ := kv
      by_cases ha : a = k
      · subst ha
        simp [mapStore, mapLookup, Ne.symm h]
      · simp only [mapStore, if_neg ha, mapLookup]
        by_cases hb : a = k'
        · simp [hb]
        · simp only [if_neg hb]
          exact ih k v k' h

lemma mapStore_length_mem : ∀ {m : List (Nat × Packet)} {k : Nat},
    mapContains m k = true → ∀ v : Packet, (mapStore m k v).length = m.length := by
  intro m
  induction m with
  | nil => intro k h v; simp [mapContains, mapLookup] at h
  | cons kv rest ih =>
      intro k h v
      obtain ⟨k', v'⟩ := kv
      by_cases hk : k' = k
      · simp [mapStore, if_pos hk]
      · simp only [mapContains, mapLookup, if_neg hk] at h
        simp only [mapStore, if_neg hk, List.length_cons]
        rw [ih h v]

lemma mapStore_length_not_mem : ∀ {m : List (Nat × Packet)} {k : Nat},
    mapContains m k = false → ∀ v : Packet, (mapStore m k v).length = m.length + 1 := by
  intro m
  induction m with
  | nil => intro k _ v; simp [mapStore]
  | cons kv rest ih =>
      intro k h v
      obtain ⟨k', v'⟩ := kv
      by_cases hk : k' = k
      · simp [mapContains, mapLookup, if_pos hk] at h
      · simp only [mapContains, mapLookup, if_neg hk] at h
        simp only [mapStore, if_neg hk, List.length_cons]
        rw [ih h v]

end SatVis

namespace SatVis

/-! ### Branch shapes of getNext -/

lemma getNext_stopped_empty {rb : ReorderingBuffer} (h1 : rb.running = false)
    (h2 : rb.buffer = []) : rb.getNext = (none, rb) := by
  simp [ReorderingBuffer.getNext, h1, h2]

lemma getNext_hit {rb : ReorderingBuffer} {p : Packet}
    (h : mapLookup rb.buffer rb.next_expected_seq = some p) :
    rb.getNext =
      (some p,
        { rb with
          buffer := mapErase rb.buffer rb.next_expected_seq
          next_expected_seq := (rb.next_expected_seq + 1) % u64Mod
          total_released := rb.total_released + 1 }) := by
  have hg : ¬ (rb.running = false ∧ rb.buffer = []) := by
    rintro ⟨-, hb⟩
    rw [hb] at h
    simp [mapLookup] at h
  rw [ReorderingBuffer.getNext, if_neg hg, h]

lemma getNext_gap_hit {rb : ReorderingBuffer} {p : Packet}
    (h0 : mapLookup rb.buffer rb.next_expected_seq = none)
    (h1 : mapLookup rb.buffer ((rb.next_expected_seq + 1) % u64Mod) = some p) :
    rb.getNext =
      (some p,
        { rb with
          buffer := mapErase rb.buffer ((rb.next_expected_seq + 1) % u64Mod)
          next_expected_seq := ((rb.next_expected_seq + 1) % u64Mod + 1) % u64Mod
          total_released := rb.total_released + 1
          total_gaps := rb.total_gaps + 1 }) := by
  have hg : ¬ (rb.running = false ∧ rb.buffer = []) := by
    rintro ⟨-, hb⟩
    rw [hb] at h1
    simp [mapLookup] at h1
  rw [ReorderingBuffer.getNext, if_neg hg, h0, h1]

lemma getNext_gap_miss {rb : ReorderingBuffer}
    (hg : ¬ (rb.running = false ∧ rb.buffer = []))
    (h0 : mapLookup rb.buffer rb.next_expected_seq = none)
    (h1 : mapLookup rb.buffer ((rb.next_expected_seq + 1) % u64Mod) = none) :
    rb.getNext =
      (none,
        { rb with
          next_expected_seq := (rb.next_expected_seq + 1) % u64Mod
          total_gaps := rb.total_gaps + 1 }) := by
  rw [ReorderingBuffer.getNext, if_neg hg, h0, h1]

/-! ### insert and insertAll -/

lemma insert_fields (rb : ReorderingBuffer) (pkt : Packet) :
    (rb.insert pkt).next_expected_seq = rb.next_expected_seq ∧
    (rb.insert pkt).running = rb.running ∧
    (rb.insert pkt).total_released = rb.total_released ∧
    (rb.insert pkt).total_gaps = rb.total_gaps := by
  simp [ReorderingBuffer.insert]

lemma insertAll_fields (ps : List Packet) : ∀ rb : ReorderingBuffer,
    (rb.insertAll ps).next_expected_seq = rb.next_expected_seq ∧
    (rb.insertAll ps).running = rb.running := by
  induction ps with
  | nil => intro rb; exact ⟨rfl, rfl⟩
  | cons p ps ih =>
      intro rb
      have h := ih (rb.insert p)
      simpa [ReorderingBuffer.insertAll, ReorderingBuffer.insert] using h

lemma insertAll_keyMatch (ps : List Packet) : ∀ rb : ReorderingBuffer,
    keyMatch rb.buffer → keyMatch (rb.insertAll ps).buffer := by
  induction ps with
  | nil => intro rb h; exact h
  | cons p ps ih =>
      intro rb h
      exact ih (rb.insert p) (keyMatch_store h p)

lemma insertAll_keys (ps : List Packet) : ∀ rb : ReorderingBuffer,
    (mapKeys rb.buffer ++ ps.map Packet.sequence_number).Nodup →
    mapKeys (rb.insertAll ps).buffer =
      mapKeys rb.buffer ++ ps.map Packet.sequence_number := by
  induction ps with
  | nil => intro rb _; simp [ReorderingBuffer.insertAll]
  | cons p ps ih =>
      intro rb h
      simp only [List.map_cons] at h
      have hnot : p.sequence_number ∉ mapKeys rb.buffer := by
        intro hmem
        have := (List.nodup_append.mp h).2.2
        exact this hmem (List.mem_cons_self _ _)
      have hkeys1 : mapKeys (rb.insert p).buffer =
          mapKeys rb.buffer ++ [p.sequence_number] := by
        simpa [ReorderingBuffer.insert] using mapKeys_store_not_mem hnot p
      have h2 : (mapKeys (rb.insert p).buffer ++ ps.map Packet.sequence_number).Nodup := by
        rw [hkeys1, List.append_assoc]
        simpa using h
      have := ih (rb.insert p) h2
      simp only [ReorderingBuffer.insertAll, List.foldl_cons] at *
      rw [this, hkeys1, List.append_assoc]
      simp

end SatVis

namespace SatVis

/-! ### Arithmetic helpers for 64-bit wraparound -/

lemma u64Mod_eq : u64Mod = 18446744073709551616 := by norm_num [u64Mod]

lemma succMod_ne (n : Nat) : (n + 1) % u64Mod ≠ n := by
  rw [u64Mod_eq]; omega

lemma succSuccMod_ne (n : Nat) : ((n + 1) % u64Mod + 1) % u64Mod ≠ n := by
  rw [u64Mod_eq]; omega

end SatVis

namespace SatVis

/-- Claim C9: `insert` always succeeds, counts the arrival, stores the
packet under its own sequence number with last-write-wins overwrite
(pending size unchanged when the key was already pending, grown by one
otherwise), and leaves all other keys untouched. -/
theorem claim_insert_total_overwrite (rb : ReorderingBuffer) (pkt : Packet) :
    (rb.insert pkt).total_received = rb.total_received + 1 ∧
    mapLookup (rb.insert pkt).buffer pkt.sequence_number = some pkt ∧
    (∀ k : Nat, k ≠ pkt.sequence_number →
      mapLookup (rb.insert pkt).buffer k = mapLookup rb.buffer k) ∧
    (mapContains rb.buffer pkt.sequence_number = true →
      (rb.insert pkt).buffer.length = rb.buffer.length) ∧
    (mapContains rb.buffer pkt.sequence_number = false →
      (rb.insert pkt).buffer.length = rb.buffer.length + 1) := by
  refine ⟨rfl, ?_, ?_, ?_, ?_⟩
  · simpa [ReorderingBuffer.insert] using
      mapLookup_store_self rb.buffer pkt.sequence_number pkt
  · intro k hk
    simpa [ReorderingBuffer.insert] using
      mapLookup_store_ne rb.buffer pkt.sequence_number pkt k hk
  · intro h
    simpa [ReorderingBuffer.insert] using mapStore_length_mem h pkt
  · intro h
    simpa [ReorderingBuffer.insert] using mapStore_length_not_mem h pkt

/-- Witness for C9, at a duplicate insertion of sequence number 7. -/
theorem claim_insert_total_overwrite_witness :
    mapContains ((ReorderingBuffer.init 0).insert (mkPacket 7 Priority.BULK 0)).buffer
      (mkPacket 7 Priority.BULK 0).sequence_number = true ∧
    (((ReorderingBuffer.init 0).insert (mkPacket 7 Priority.BULK 0)).insert
        (mkPacket 7 Priority.BULK 0)).total_received =
      ((ReorderingBuffer.init 0).insert (mkPacket 7 Priority.BULK 0)).total_received + 1 ∧
    (((ReorderingBuffer.init 0).insert (mkPacket 7 Priority.BULK 0)).insert
        (mkPacket 7 Priority.BULK 0)).buffer.length =
      ((ReorderingBuffer.init 0).insert (mkPacket 7 Priority.BULK 0)).buffer.length :=
  ⟨by decide, (claim_insert_total_overwrite _ _).1,
    (claim_insert_total_overwrite _ _).2.2.2.1 (by decide)⟩

/-- Claim C10: once the buffer is stopped and no packets are pending,
`getNext` returns nothing and leaves the whole state unchanged, and hence
every further `getNext` call does the same (terminal state). -/
theorem claim_terminal_state (rb : ReorderingBuffer) (h1 : rb.running = false)
    (h2 : rb.buffer = []) :
    rb.getNext = (none, rb) ∧
    ∀ k : Nat, rb.getNextIter k = (List.replicate k none, rb) := by
  refine ⟨getNext_stopped_empty h1 h2, ?_⟩
  intro k
  induction k with
  | zero => rfl
  | succ k ih =>
      simp [ReorderingBuffer.getNextIter, getNext_stopped_empty h1 h2, ih,
        List.replicate_succ]

/-- Witness for C10 at a freshly stopped empty buffer. -/
theorem claim_terminal_state_witness :
    ((ReorderingBuffer.init 0).stop).running = false ∧
    ((ReorderingBuffer.init 0).stop).buffer = [] ∧
    ((ReorderingBuffer.init 0).stop).getNext = (none, (ReorderingBuffer.init 0).stop) ∧
    ((ReorderingBuffer.init 0).stop).getNextIter 3 =
      (List.replicate 3 none, (ReorderingBuffer.init 0).stop) :=
  ⟨by decide, by decide,
    (claim_terminal_state _ (by decide) (by decide)).1,
    (claim_terminal_state _ (by decide) (by decide)).2 3⟩

/-- Claim C6: the mutex chosen by `route`/`dequeue` lives in a fixed array
of 16 mutexes while the queue index is `destination_id % num_queues`, so
the access is in bounds for every destination exactly when
`num_queues ≤ 16`; with more than 16 queues destination 16 already indexes
out of bounds. -/
theorem claim_lock_index_bounds (n : Nat) (hn : 0 < n) :
    ((∀ dest : Nat, lockIndexOf n dest < queueMutexCount) ↔ n ≤ queueMutexCount) ∧
    (queueMutexCount < n → queueMutexCount ≤ lockIndexOf n 16) ∧
    (∀ (r : PriorityRouter) (pkt : Packet),
      (r.route pkt).queues (lockIndexOf r.num_queues pkt.destination_id) =
        pkt :: r.queues (lockIndexOf r.num_queues pkt.destination_id)) := by
  refine ⟨⟨?_, ?_⟩, ?_, ?_⟩
  · intro hall
    by_contra hlt
    push_neg at hlt
    have hlt' : (16 : Nat) < n := by simpa [queueMutexCount] using hlt
    have h16 := hall 16
    rw [lockIndexOf, Nat.mod_eq_of_lt hlt'] at h16
    exact absurd h16 (by simp [queueMutexCount])
  · intro hle dest
    calc lockIndexOf n dest < n := Nat.mod_lt _ hn
      _ ≤ queueMutexCount := hle
  · intro hlt
    have hlt' : (16 : Nat) < n := by simpa [queueMutexCount] using hlt
    rw [lockIndexOf, Nat.mod_eq_of_lt hlt']
    simp [queueMutexCount]
  · intro r pkt
    simp [PriorityRouter.route]

/-- Witness for C6 at 17 output queues. -/
theorem claim_lock_index_bounds_witness :
    queueMutexCount ≤ lockIndexOf 17 16 :=
  (claim_lock_index_bounds 17 (by decide)).2.1 (by decide)

end SatVis

namespace SatVis

/-- Counterexample to C2 as stated: in a stopped buffer with pending
packet 5 and `next_expected_seq = 3`, `getNext` returns at once (the wait
predicate already holds because `running_` is false, so no per-call
deadline elapses), yet `gaps` still increments — so "gaps increments ...
and only in that case [the deadline elapses]" is false. -/
theorem claim_gap_only_on_deadline_counterexample :
    ((((ReorderingBuffer.init 3).insert (mkPacket 5 Priority.BULK 0)).stop).getNext).2.total_gaps =
      (((ReorderingBuffer.init 3).insert (mkPacket 5 Priority.BULK 0)).stop).total_gaps + 1 ∧
    (((ReorderingBuffer.init 3).insert (mkPacket 5 Priority.BULK 0)).stop).deadlineElapses
      = false := by
  constructor <;> decide

/-- Amended C2: `gaps` increments exactly when the expected sequence
number is not pending and the buffer is not in the stopped-and-empty
terminal state (in particular whenever the per-call deadline elapses);
when the deadline does elapse, `gaps` increments by exactly one,
`next_expected_seq` moves off the awaited value, and the new expected
number is checked: if pending, that packet is removed and returned within
the same call with `released` incremented and `next_expected_seq` advanced
again, otherwise the call returns nothing. -/
theorem claim_gap_advance_behavior (rb : ReorderingBuffer) :
    ((rb.getNext).2.total_gaps = rb.total_gaps + 1 ↔
      (mapLookup rb.buffer rb.next_expected_seq = none ∧
        ¬ (rb.running = false ∧ rb.buffer = []))) ∧
    (rb.deadlineElapses = true →
      (rb.getNext).2.total_gaps = rb.total_gaps + 1 ∧
      (rb.getNext).2.next_expected_seq ≠ rb.next_expected_seq ∧
      (∀ q : Packet, mapLookup rb.buffer ((rb.next_expected_seq + 1) % u64Mod) = some q →
        (rb.getNext).1 = some q ∧
        (rb.getNext).2.next_expected_seq =
          ((rb.next_expected_seq + 1) % u64Mod + 1) % u64Mod ∧
        (rb.getNext).2.total_released = rb.total_released + 1 ∧
        (rb.getNext).2.buffer = mapErase rb.buffer ((rb.next_expected_seq + 1) % u64Mod)) ∧
      (mapLookup rb.buffer ((rb.next_expected_seq + 1) % u64Mod) = none →
        (rb.getNext).1 = none ∧
        (rb.getNext).2.next_expected_seq = (rb.next_expected_seq + 1) % u64Mod ∧
        (rb.getNext).2.total_released = rb.total_released)) := by
  constructor
  · by_cases hg : rb.running = false ∧ rb.buffer = []
    · rw [getNext_stopped_empty hg.1 hg.2]
      constructor
      · intro h
        exact absurd h (by simp)
      · rintro ⟨-, hng⟩
        exact absurd hg hng
    · cases h0 : mapLookup rb.buffer rb.next_expected_seq with
      | some p =>
          rw [getNext_hit h0]
          constructor
          · intro h
            exact absurd h (by simp)
          · rintro ⟨hnone, -⟩
            simp at hnone
      | none =>
          cases h1 : mapLookup rb.buffer ((rb.next_expected_seq + 1) % u64Mod) with
          | some p =>
              rw [getNext_gap_hit h0 h1]
              exact iff_of_true rfl ⟨rfl, hg⟩
          | none =>
              rw [getNext_gap_miss hg h0 h1]
              exact iff_of_true rfl ⟨rfl, hg⟩
  · intro hd
    have hrun : rb.running = true := by
      cases hrb : rb.running
      · rw [ReorderingBuffer.deadlineElapses, hrb] at hd
        simp at hd
      · rfl
    have h0 : mapLookup rb.buffer rb.next_expected_seq = none := by
      rw [ReorderingBuffer.deadlineElapses, hrun] at hd
      simpa [mapContains] using hd
    have hg : ¬ (rb.running = false ∧ rb.buffer = []) := by
      rintro ⟨hf, -⟩
      rw [hrun] at hf
      cases hf
    cases h1 : mapLookup rb.buffer ((rb.next_expected_seq + 1) % u64Mod) with
    | some p =>
        rw [getNext_gap_hit h0 h1]
        refine ⟨rfl, succSuccMod_ne rb.next_expected_seq, ?_, ?_⟩
        · intro q hq
          injection hq with hq
          subst hq
          exact ⟨rfl, rfl, rfl, rfl⟩
        · intro hq
          simp at hq
    | none =>
        rw [getNext_gap_miss hg h0 h1]
        refine ⟨rfl, succMod_ne rb.next_expected_seq, ?_, ?_⟩
        · intro q hq
          simp at hq
        · intro _
          exact ⟨rfl, rfl, rfl⟩

/-- Witness for the amended C2 at a running buffer holding only packet 1
while expecting 0: the deadline elapses, the gap is recorded, and packet 1
is released in the same call. -/
theorem claim_gap_advance_behavior_witness :
    ((ReorderingBuffer.init 0).insert (mkPacket 1 Priority.BULK 0)).deadlineElapses = true ∧
    ((((ReorderingBuffer.init 0).insert (mkPacket 1 Priority.BULK 0)).getNext).2.total_gaps =
      ((ReorderingBuffer.init 0).insert (mkPacket 1 Priority.BULK 0)).total_gaps + 1) :=
  ⟨by decide, ((claim_gap_advance_behavior _).2 (by decide)).1⟩

/-- Counterexample to C7 as stated ("no call does neither or both"): with
`next_expected_seq = 0` and only packet 1 pending, a single `getNext` call
BOTH advances past a gap (gaps increments) AND delivers a packet
(released increments and packet 1 is returned). -/
theorem claim_delivery_xor_gap_counterexample :
    ((((ReorderingBuffer.init 0).insert (mkPacket 1 Priority.BULK 0)).getNext).2.total_gaps =
      ((ReorderingBuffer.init 0).insert (mkPacket 1 Priority.BULK 0)).total_gaps + 1) ∧
    ((((ReorderingBuffer.init 0).insert (mkPacket 1 Priority.BULK 0)).getNext).2.total_released =
      ((ReorderingBuffer.init 0).insert (mkPacket 1 Priority.BULK 0)).total_released + 1) ∧
    ((((ReorderingBuffer.init 0).insert (mkPacket 1 Priority.BULK 0)).getNext).1 =
      some (mkPacket 1 Priority.BULK 0)) := by
  refine ⟨?_, ?_, ?_⟩ <;> decide

/-- Amended C7: every `getNext` call either delivers exactly one in-order
packet (released +1, gaps unchanged), or advances past exactly one gap
(gaps +1) — in which case it may ALSO deliver the packet now in order —
or is in the stopped-and-empty terminal state and does neither. -/
theorem claim_delivery_or_gap_cases (rb : ReorderingBuffer) :
    ((rb.getNext).2.total_released = rb.total_released + 1 ∧
      (rb.getNext).2.total_gaps = rb.total_gaps ∧ ∃ p : Packet, (rb.getNext).1 = some p) ∨
    ((rb.getNext).2.total_gaps = rb.total_gaps + 1 ∧
      (((rb.getNext).2.total_released = rb.total_released ∧ (rb.getNext).1 = none) ∨
        ((rb.getNext).2.total_released = rb.total_released + 1 ∧
          ∃ p : Packet, (rb.getNext).1 = some p))) ∨
    (rb.running = false ∧ rb.buffer = [] ∧ (rb.getNext).1 = none ∧
      (rb.getNext).2 = rb) := by
  by_cases hg : rb.running = false ∧ rb.buffer = []
  · right; right
    rw [getNext_stopped_empty hg.1 hg.2]
    exact ⟨hg.1, hg.2, rfl, rfl⟩
  · cases h0 : mapLookup rb.buffer rb.next_expected_seq with
    | some p =>
        left
        rw [getNext_hit h0]
        exact ⟨rfl, rfl, p, rfl⟩
    | none =>
        cases h1 : mapLookup rb.buffer ((rb.next_expected_seq + 1) % u64Mod) with
        | some p =>
            right; left
            rw [getNext_gap_hit h0 h1]
            exact ⟨rfl, Or.inr ⟨rfl, p, rfl⟩⟩
        | none =>
            right; left
            rw [getNext_gap_miss hg h0 h1]
            exact ⟨rfl, Or.inl ⟨rfl, rfl⟩⟩

/-- Counterexample to C8 as stated: starting the buffer at the largest
`uint64_t` value 2^64 - 1 and releasing that packet wraps
`next_expected_seq` around to 0, a strict decrease. -/
theorem claim_next_monotone_counterexample :
    ((((ReorderingBuffer.init (2 ^ 64 - 1)).insert
          (mkPacket (2 ^ 64 - 1) Priority.BULK 0)).step RBOp.opGetNext).1).next_expected_seq <
      ((ReorderingBuffer.init (2 ^ 64 - 1)).insert
        (mkPacket (2 ^ 64 - 1) Priority.BULK 0)).next_expected_seq := by
  decide

/-- Amended C8: `next_expected_seq` is non-decreasing across every
operation as long as it stays clear of the 64-bit wraparound (it advances
by at most 2 per call). -/
theorem claim_next_monotone_no_wrap (rb : ReorderingBuffer) (op : RBOp)
    (h : rb.next_expected_seq + 2 < u64Mod) :
    rb.next_expected_seq ≤ ((rb.step op).1).next_expected_seq := by
  cases op with
  | opInsert pkt => simp [ReorderingBuffer.step, ReorderingBuffer.insert]
  | opStop => simp [ReorderingBuffer.step, ReorderingBuffer.stop]
  | opGetNext =>
      simp only [ReorderingBuffer.step]
      by_cases hg : rb.running = false ∧ rb.buffer = []
      · rw [getNext_stopped_empty hg.1 hg.2]
      · cases h0 : mapLookup rb.buffer rb.next_expected_seq with
        | some p =>
            rw [getNext_hit h0]
            have e1 : (rb.next_expected_seq + 1) % u64Mod = rb.next_expected_seq + 1 :=
              Nat.mod_eq_of_lt (by omega)
            simp only [e1]
            omega
        | none =>
            cases h1 : mapLookup rb.buffer ((rb.next_expected_seq + 1) % u64Mod) with
            | some p =>
                rw [getNext_gap_hit h0 h1]
                have e1 : (rb.next_expected_seq + 1) % u64Mod = rb.next_expected_seq + 1 :=
                  Nat.mod_eq_of_lt (by omega)
                have e2 : (rb.next_expected_seq + 1 + 1) % u64Mod = rb.next_expected_seq + 2 :=
                  Nat.mod_eq_of_lt (by omega)
                simp only [e1, e2]
                omega
            | none =>
                rw [getNext_gap_miss hg h0 h1]
                have e1 : (rb.next_expected_seq + 1) % u64Mod = rb.next_expected_seq + 1 :=
                  Nat.mod_eq_of_lt (by omega)
                simp only [e1]
                omega

/-- Witness for the amended C8 at a fresh buffer and a `getNext` call. -/
theorem claim_next_monotone_no_wrap_witness :
    (ReorderingBuffer.init 0).next_expected_seq + 2 < u64Mod ∧
    (ReorderingBuffer.init 0).next_expected_seq ≤
      ((((ReorderingBuffer.init 0)).step RBOp.opGetNext).1).next_expected_seq :=
  ⟨by decide, claim_next_monotone_no_wrap _ _ (by decide)⟩

/-- Claim C4: `tryPush` fails (state unchanged, item kept by the caller)
exactly when the next producer index would collide with the consumer
index; `tryPop` returns nothing (state unchanged) exactly when the two
indices are equal; a capacity-8 buffer accepts exactly 7 pushes before one
fails, and after a single pop exactly one more push succeeds. -/
theorem claim_spsc_push_pop :
    (∀ (rb : SPSCRingBuffer Nat) (item : Nat),
      ((rb.tryPush item).1 = false ↔ (rb.head + 1) &&& (rb.capacity - 1) = rb.tail) ∧
      ((rb.head + 1) &&& (rb.capacity - 1) = rb.tail → (rb.tryPush item).2 = rb)) ∧
    (∀ rb : SPSCRingBuffer Nat,
      ((rb.tryPop).1 = none ↔ rb.tail = rb.head) ∧
      (rb.tail = rb.head → (rb.tryPop).2 = rb)) ∧
    ((SPSCRingBuffer.init Nat 8).pushList [1, 2, 3, 4, 5, 6, 7, 8]).2 =
      [true, true, true, true, true, true, true, false] ∧
    (((((SPSCRingBuffer.init Nat 8).pushList [1, 2, 3, 4, 5, 6, 7, 8]).1).tryPop).2.pushList
        [9, 10]).2 = [true, false] := by
  refine ⟨?_, ?_, by decide, by decide⟩
  · intro rb item
    by_cases hc : (rb.head + 1) &&& (rb.capacity - 1) = rb.tail
    · constructor
      · exact iff_of_true (by simp [SPSCRingBuffer.tryPush, hc]) hc
      · intro _
        simp [SPSCRingBuffer.tryPush, hc]
    · constructor
      · constructor
        · intro hfail
          simp [SPSCRingBuffer.tryPush, hc] at hfail
        · intro hcc
          exact absurd hcc hc
      · intro hcc
        exact absurd hcc hc
  · intro rb
    by_cases hc : rb.tail = rb.head
    · constructor
      · exact iff_of_true (by simp [SPSCRingBuffer.tryPop, hc]) hc
      · intro _
        simp [SPSCRingBuffer.tryPop, hc]
    · constructor
      · constructor
        · intro hfail
          simp [SPSCRingBuffer.tryPop, hc] at hfail
        · intro hcc
          exact absurd hcc hc
      · intro hcc
        exact absurd hcc hc

/-- Witness for C4's general parts at a concrete buffer. -/
theorem claim_spsc_push_pop_witness :
    (((SPSCRingBuffer.init Nat 8).tryPush 5).1 = false ↔
      ((SPSCRingBuffer.init Nat 8).head + 1) &&& ((SPSCRingBuffer.init Nat 8).capacity - 1) =
        (SPSCRingBuffer.init Nat 8).tail) ∧
    (((SPSCRingBuffer.init Nat 8).tryPop).1 = none ↔
      (SPSCRingBuffer.init Nat 8).tail = (SPSCRingBuffer.init Nat 8).head) ∧
    ((SPSCRingBuffer.init Nat 8).tail = (SPSCRingBuffer.init Nat 8).head →
      ((SPSCRingBuffer.init Nat 8).tryPop).2 = SPSCRingBuffer.init Nat 8) :=
  ⟨(claim_spsc_push_pop.1 (SPSCRingBuffer.init Nat 8) 5).1,
    (claim_spsc_push_pop.2.1 (SPSCRingBuffer.init Nat 8)).1,
    (claim_spsc_push_pop.2.1 (SPSCRingBuffer.init Nat 8)).2⟩

end SatVis

namespace SatVis

/-! ### In-order release of a contiguous pending range -/

lemma getNextIter_releases_range : ∀ (n : Nat) (rb : ReorderingBuffer),
    rb.running = true → keyMatch rb.buffer →
    (mapKeys rb.buffer).Perm (List.range' rb.next_expected_seq n) →
    rb.next_expected_seq + n ≤ u64Mod →
    (rb.getNextIter n).1.map (Option.map Packet.sequence_number) =
      (List.range' rb.next_expected_seq n).map some := by
  intro n
  induction n with
  | zero => intro rb _ _ _ _; simp [ReorderingBuffer.getNextIter]
  | succ n ih =>
      intro rb hrun hkm hkeys hbound
      have hmem : rb.next_expected_seq ∈ mapKeys rb.buffer := by
        apply hkeys.mem_iff.mpr
        rw [List.range'_succ]
        exact List.mem_cons_self _ _
      have hcont : mapContains rb.buffer rb.next_expected_seq = true :=
        mapContains_iff_mem_keys.mpr hmem
      obtain ⟨p, hp⟩ : ∃ p : Packet, mapLookup rb.buffer rb.next_expected_seq = some p := by
        cases hv : mapLookup rb.buffer rb.next_expected_seq with
        | none => rw [mapContains, hv] at hcont; simp at hcont
        | some q => exact ⟨q, rfl⟩
      have hpseq : p.sequence_number = rb.next_expected_seq := hkm _ (mapLookup_mem hp)
      have hstep := getNext_hit hp
      have hkeys' : (mapKeys (mapErase rb.buffer rb.next_expected_seq)).Perm
          (List.range' (rb.next_expected_seq + 1) n) := by
        rw [mapKeys_erase]
        have h1 := hkeys.erase rb.next_expected_seq
        rw [List.range'_succ, List.erase_cons_head] at h1
        exact h1
      simp only [ReorderingBuffer.getNextIter, hstep, List.map_cons, Option.map_some']
      rw [List.range'_succ, List.map_cons, hpseq]
      congr 1
      by_cases hn : n = 0
      · subst hn
        simp [ReorderingBuffer.getNextIter]
      · have hlt : rb.next_expected_seq + 1 < u64Mod := by omega
        have hmod : (rb.next_expected_seq + 1) % u64Mod = rb.next_expected_seq + 1 :=
          Nat.mod_eq_of_lt hlt
        have := ih
          { rb with
            buffer := mapErase rb.buffer rb.next_expected_seq
            next_expected_seq := (rb.next_expected_seq + 1) % u64Mod
            total_released := rb.total_released + 1 }
          hrun (keyMatch_erase hkm _) (by simpa [hmod] using hkeys') (by simp [hmod]; omega)
        simpa [hmod] using this

/-- Claim C1: inserting packets whose sequence numbers form a contiguous
set starting at the construction-time start sequence, and then calling
`getNext` once per packet (nothing expires, every call finds its packet),
releases the packets in strictly increasing sequence order matching the
inserted set. -/
theorem claim_contiguous_inserts_released_in_order (s n : Nat) (ps : List Packet)
    (hbound : s + n ≤ u64Mod)
    (hperm : (ps.map Packet.sequence_number).Perm (List.range' s n)) :
    (((ReorderingBuffer.init s).insertAll ps).getNextIter n).1.map
        (Option.map Packet.sequence_number) =
      (List.range' s n).map some := by
  by_cases hn : n = 0
  · subst hn
    simp [ReorderingBuffer.getNextIter]
  · have hslt : s < u64Mod := by omega
    have hnext : ((ReorderingBuffer.init s).insertAll ps).next_expected_seq = s := by
      rw [(insertAll_fields ps (ReorderingBuffer.init s)).1]
      exact Nat.mod_eq_of_lt hslt
    have hrun : ((ReorderingBuffer.init s).insertAll ps).running = true :=
      (insertAll_fields ps (ReorderingBuffer.init s)).2
    have hkm : keyMatch ((ReorderingBuffer.init s).insertAll ps).buffer :=
      insertAll_keyMatch ps (ReorderingBuffer.init s) keyMatch_nil
    have hnodup : (mapKeys (ReorderingBuffer.init s).buffer ++
        ps.map Packet.sequence_number).Nodup := by
      have hr : (List.range' s n).Nodup := List.nodup_range' s n 1 (by omega)
      simpa [ReorderingBuffer.init, mapKeys] using hperm.nodup_iff.mpr hr
    have hkeys : (mapKeys ((ReorderingBuffer.init s).insertAll ps).buffer).Perm
        (List.range' ((ReorderingBuffer.init s).insertAll ps).next_expected_seq n) := by
      rw [insertAll_keys ps (ReorderingBuffer.init s) hnodup, hnext]
      simpa [ReorderingBuffer.init, mapKeys] using hperm
    have := getNextIter_releases_range n ((ReorderingBuffer.init s).insertAll ps)
      hrun hkm hkeys (by rw [hnext]; exact hbound)
    rwa [hnext] at this

/-- Witness for C1 at Scenario A: sequence numbers {2, 0, 1} inserted in
that arrival order are released as 0, then 1, then 2. -/
theorem claim_contiguous_inserts_released_in_order_witness :
    (((ReorderingBuffer.init 0).insertAll
        [mkPacket 2 Priority.BULK 0, mkPacket 0 Priority.BULK 0,
          mkPacket 1 Priority.BULK 0]).getNextIter 3).1.map
      (Option.map Packet.sequence_number) = (List.range' 0 3).map some :=
  claim_contiguous_inserts_released_in_order 0 3 _ (by decide) (by decide)

end SatVis

namespace SatVis

/-! ### Traces of the reordering buffer -/

lemma run_append (l1 l2 : List RBOp) : ∀ rb : ReorderingBuffer,
    rb.run (l1 ++ l2) =
      (((rb.run l1).1.run l2).1, (rb.run l1).2 ++ ((rb.run l1).1.run l2).2) := by
  induction l1 with
  | nil => intro rb; simp [ReorderingBuffer.run]
  | cons op ops ih =>
      intro rb
      have h : rb.run ((op :: ops) ++ l2) =
          (((rb.step op).1.run (ops ++ l2)).1,
            (rb.step op).2.toList ++ ((rb.step op).1.run (ops ++ l2)).2) := rfl
      have h2 : rb.run (op :: ops) =
          (((rb.step op).1.run ops).1,
            (rb.step op).2.toList ++ ((rb.step op).1.run ops).2) := rfl
      rw [h, ih ((rb.step op).1), h2]
      simp [List.append_assoc]

/-- State component of `run_append`. -/
lemma run_append_fst (l1 l2 : List RBOp) (rb : ReorderingBuffer) :
    (rb.run (l1 ++ l2)).1 = (((rb.run l1).1).run l2).1 := by
  rw [run_append l1 l2 rb]

/-- Output component of `run_append`. -/
lemma run_append_snd (l1 l2 : List RBOp) (rb : ReorderingBuffer) :
    (rb.run (l1 ++ l2)).2 = (rb.run l1).2 ++ (((rb.run l1).1).run l2).2 := by
  rw [run_append l1 l2 rb]
/-- Effect of `k` successive `getNext` calls on a running, empty buffer:
every call times out, records one gap, and advances `next_expected_seq`
by one modulo 2^64; no packet is released. -/
lemma run_getNext_empty_state (k : Nat) :
    ∀ nx rc rl gp : Nat, nx < u64Mod →
    (ReorderingBuffer.mk [] nx true rc rl gp).run (List.replicate k RBOp.opGetNext) =
      (ReorderingBuffer.mk [] ((nx + k) % u64Mod) true rc rl (gp + k), []) := by
  induction k with
  | zero =>
      intro nx rc rl gp hlt
      have h1 : (nx + 0) % u64Mod = nx := by
        rw [Nat.add_zero]
        exact Nat.mod_eq_of_lt hlt
      rw [h1, Nat.add_zero]
      rfl
  | succ k ih =>
      intro nx rc rl gp hlt
      have hUpos : 0 < u64Mod := by rw [u64Mod_eq]; omega
      have hrw : (ReorderingBuffer.mk [] nx true rc rl gp).run
          (List.replicate (k + 1) RBOp.opGetNext) =
          (ReorderingBuffer.mk [] ((nx + 1) % u64Mod) true rc rl (gp + 1)).run
            (List.replicate k RBOp.opGetNext) := rfl
      rw [hrw, ih ((nx + 1) % u64Mod) rc rl (gp + 1) (Nat.mod_lt _ hUpos)]
      have e1 : ((nx + 1) % u64Mod + k) % u64Mod = (nx + (k + 1)) % u64Mod := by
        rw [Nat.mod_add_mod]
        congr 1
        omega
      have e2 : gp + 1 + k = gp + (k + 1) := by omega
      rw [e1, e2]

end SatVis

namespace SatVis

/-- Counterexample to C5 as stated: over the (astronomically long but
well-defined) operation sequence `dupTrace`, `next_expected_seq` wraps
around the whole 64-bit space and sequence number 2^64 - 1
(= 18446744073709551615) is released twice, so the released sequence
numbers are not pairwise distinct. -/
theorem claim_released_distinct_counterexample :
    ¬ ((((ReorderingBuffer.init 18446744073709551615).run dupTrace).2.map
        Packet.sequence_number).Pairwise (fun a b => a ≠ b)) := by
  intro hpw
  have e1a : (((ReorderingBuffer.init 18446744073709551615).run
      [RBOp.opInsert dupPacket, RBOp.opGetNext])).1 = wrapMid := by decide
  have e1b : (((ReorderingBuffer.init 18446744073709551615).run
      [RBOp.opInsert dupPacket, RBOp.opGetNext])).2 = [dupPacket] := by decide
  have e2 : wrapMid.run (List.replicate 18446744073709551615 RBOp.opGetNext) =
      (wrapEnd, []) := by
    have h := run_getNext_empty_state 18446744073709551615 0 1 1 0 (by decide)
    rw [show wrapMid = ReorderingBuffer.mk [] 0 true 1 1 0 from rfl, h]
    decide
  have e2a : (wrapMid.run (List.replicate 18446744073709551615 RBOp.opGetNext)).1 =
      wrapEnd := by rw [e2]
  have e2b : (wrapMid.run (List.replicate 18446744073709551615 RBOp.opGetNext)).2 =
      [] := by rw [e2]
  have e3b : (wrapEnd.run [RBOp.opInsert dupPacket, RBOp.opGetNext]).2 = [dupPacket] := by
    decide
  unfold dupTrace at hpw
  rw [run_append_snd ([RBOp.opInsert dupPacket, RBOp.opGetNext] ++
      List.replicate 18446744073709551615 RBOp.opGetNext)
    [RBOp.opInsert dupPacket, RBOp.opGetNext]] at hpw
  rw [run_append_fst [RBOp.opInsert dupPacket, RBOp.opGetNext]
    (List.replicate 18446744073709551615 RBOp.opGetNext)] at hpw
  rw [e1a] at hpw
  rw [e2a] at hpw
  rw [run_append_snd [RBOp.opInsert dupPacket, RBOp.opGetNext]
    (List.replicate 18446744073709551615 RBOp.opGetNext)] at hpw
  rw [e1b] at hpw
  rw [e1a] at hpw
  rw [e2b] at hpw
  rw [e3b] at hpw
  simp [List.pairwise_cons] at hpw

end SatVis

namespace SatVis

/-- Released packets over a wrap-free trace: the buffer's key invariant is
preserved, `next_expected_seq` grows by at most 2 per operation, every
released packet's sequence number lies in the window swept by
`next_expected_seq`, and the released sequence numbers strictly increase. -/
lemma run_releases_increasing (ops : List RBOp) : ∀ rb : ReorderingBuffer,
    keyMatch rb.buffer →
    rb.next_expected_seq + 2 * ops.length < u64Mod →
    keyMatch (rb.run ops).1.buffer ∧
    rb.next_expected_seq ≤ (rb.run ops).1.next_expected_seq ∧
    (rb.run ops).1.next_expected_seq ≤ rb.next_expected_seq + 2 * ops.length ∧
    (∀ q ∈ (rb.run ops).2, rb.next_expected_seq ≤ q.sequence_number ∧
        q.sequence_number < (rb.run ops).1.next_expected_seq) ∧
    ((rb.run ops).2.map Packet.sequence_number).Pairwise (fun a b => a < b) := by
  induction ops with
  | nil =>
      intro rb hkm _
      refine ⟨hkm, Nat.le_refl _, Nat.le_add_right _ _, ?_, ?_⟩
      · intro q hq
        simp [ReorderingBuffer.run] at hq
      · show List.Pairwise _ ((List.map Packet.sequence_number (rb.run []).2))
        simp [ReorderingBuffer.run]
  | cons op ops ih =>
      intro rb hkm hb
      have hl : (op :: ops).length = ops.length + 1 := rfl
      rw [hl] at hb
      cases op with
      | opInsert pkt =>
          have hrun : rb.run (RBOp.opInsert pkt :: ops) = (rb.insert pkt).run ops := rfl
          rw [hrun]
          have hrecnx : (rb.insert pkt).next_expected_seq = rb.next_expected_seq := rfl
          have hb' : (rb.insert pkt).next_expected_seq + 2 * ops.length < u64Mod := by
            rw [hrecnx]
            omega
          obtain ⟨k1, m1, m2, mem1, pw1⟩ := ih (rb.insert pkt) (keyMatch_store hkm pkt) hb'
          refine ⟨k1, by omega, by omega, ?_, pw1⟩
          intro q hq
          have := mem1 q hq
          omega
      | opStop =>
          have hrun : rb.run (RBOp.opStop :: ops) = (rb.stop).run ops := rfl
          rw [hrun]
          have hrecnx : (rb.stop).next_expected_seq = rb.next_expected_seq := rfl
          have hb' : (rb.stop).next_expected_seq + 2 * ops.length < u64Mod := by
            rw [hrecnx]
            omega
          obtain ⟨k1, m1, m2, mem1, pw1⟩ := ih (rb.stop) hkm hb'
          refine ⟨k1, by omega, by omega, ?_, pw1⟩
          intro q hq
          have := mem1 q hq
          omega
      | opGetNext =>
          have hrun : rb.run (RBOp.opGetNext :: ops) =
              (((rb.getNext).2.run ops).1,
                (rb.getNext).1.toList ++ ((rb.getNext).2.run ops).2) := rfl
          rw [hrun]
          by_cases hg : rb.running = false ∧ rb.buffer = []
          · have hA : (rb.getNext).2 = rb := by rw [getNext_stopped_empty hg.1 hg.2]
            have hB : (rb.getNext).1 = none := by rw [getNext_stopped_empty hg.1 hg.2]
            rw [hA, hB]
            simp only [Option.toList, List.nil_append]
            obtain ⟨k1, m1, m2, mem1, pw1⟩ := ih rb hkm (by omega)
            refine ⟨k1, by omega, by omega, ?_, pw1⟩
            intro q hq
            have := mem1 q hq
            omega
          · cases h0 : mapLookup rb.buffer rb.next_expected_seq with
            | some p =>
                have hpseq : p.sequence_number = rb.next_expected_seq :=
                  hkm _ (mapLookup_mem h0)
                have hmod : (rb.next_expected_seq + 1) % u64Mod = rb.next_expected_seq + 1 :=
                  Nat.mod_eq_of_lt (by omega)
                have hA : (rb.getNext).2 =
                    { rb with
                      buffer := mapErase rb.buffer rb.next_expected_seq
                      next_expected_seq := (rb.next_expected_seq + 1) % u64Mod
                      total_released := rb.total_released + 1 } := by
                  rw [getNext_hit h0]
                have hB : (rb.getNext).1 = some p := by rw [getNext_hit h0]
                rw [hA, hB]
                simp only [Option.toList, List.singleton_append]
                have hrecnx : ({ rb with
                    buffer := mapErase rb.buffer rb.next_expected_seq
                    next_expected_seq := (rb.next_expected_seq + 1) % u64Mod
                    total_released := rb.total_released + 1 } :
                    ReorderingBuffer).next_expected_seq = rb.next_expected_seq + 1 := hmod
                have hb' : ({ rb with
                    buffer := mapErase rb.buffer rb.next_expected_seq
                    next_expected_seq := (rb.next_expected_seq + 1) % u64Mod
                    total_released := rb.total_released + 1 } :
                    ReorderingBuffer).next_expected_seq + 2 * ops.length < u64Mod := by
                  rw [hrecnx]
                  omega
                obtain ⟨k1, m1, m2, mem1, pw1⟩ := ih
                  { rb with
                    buffer := mapErase rb.buffer rb.next_expected_seq
                    next_expected_seq := (rb.next_expected_seq + 1) % u64Mod
                    total_released := rb.total_released + 1 }
                  (keyMatch_erase hkm _) hb'
                refine ⟨k1, by omega, by omega, ?_, ?_⟩
                · intro q hq
                  rcases List.mem_cons.mp hq with hq | hq
                  · subst hq
                    omega
                  · have := mem1 q hq
                    omega
                · rw [List.map_cons, List.pairwise_cons]
                  refine ⟨?_, pw1⟩
                  intro b hbmem
                  obtain ⟨q, hq, rfl⟩ := List.mem_map.mp hbmem
                  have := mem1 q hq
                  omega
            | none =>
                cases h1 : mapLookup rb.buffer ((rb.next_expected_seq + 1) % u64Mod) with
                | some p =>
                    have hmod : (rb.next_expected_seq + 1) % u64Mod =
                        rb.next_expected_seq + 1 := Nat.mod_eq_of_lt (by omega)
                    have hpseq : p.sequence_number = rb.next_expected_seq + 1 := by
                      have hk := hkm _ (mapLookup_mem h1)
                      rw [hk, hmod]
                    have hmod2 : ((rb.next_expected_seq + 1) % u64Mod + 1) % u64Mod =
                        rb.next_expected_seq + 2 := by
                      rw [hmod]
                      exact Nat.mod_eq_of_lt (by omega)
                    have hA : (rb.getNext).2 =
                        { rb with
                          buffer := mapErase rb.buffer ((rb.next_expected_seq + 1) % u64Mod)
                          next_expected_seq :=
                            ((rb.next_expected_seq + 1) % u64Mod + 1) % u64Mod
                          total_released := rb.total_released + 1
                          total_gaps := rb.total_gaps + 1 } := by
                      rw [getNext_gap_hit h0 h1]
                    have hB : (rb.getNext).1 = some p := by rw [getNext_gap_hit h0 h1]
                    rw [hA, hB]
                    simp only [Option.toList, List.singleton_append]
                    have hrecnx : ({ rb with
                        buffer := mapErase rb.buffer ((rb.next_expected_seq + 1) % u64Mod)
                        next_expected_seq :=
                          ((rb.next_expected_seq + 1) % u64Mod + 1) % u64Mod
                        total_released := rb.total_released + 1
                        total_gaps := rb.total_gaps + 1 } :
                        ReorderingBuffer).next_expected_seq = rb.next_expected_seq + 2 := hmod2
                    have hb' : ({ rb with
                        buffer := mapErase rb.buffer ((rb.next_expected_seq + 1) % u64Mod)
                        next_expected_seq :=
                          ((rb.next_expected_seq + 1) % u64Mod + 1) % u64Mod
                        total_released := rb.total_released + 1
                        total_gaps := rb.total_gaps + 1 } :
                        ReorderingBuffer).next_expected_seq + 2 * ops.length < u64Mod := by
                      rw [hrecnx]
                      omega
                    obtain ⟨k1, m1, m2, mem1, pw1⟩ := ih
                      { rb with
                        buffer := mapErase rb.buffer ((rb.next_expected_seq + 1) % u64Mod)
                        next_expected_seq :=
                          ((rb.next_expected_seq + 1) % u64Mod + 1) % u64Mod
                        total_released := rb.total_released + 1
                        total_gaps := rb.total_gaps + 1 }
                      (keyMatch_erase hkm _) hb'
                    refine ⟨k1, by omega, by omega, ?_, ?_⟩
                    · intro q hq
                      rcases List.mem_cons.mp hq with hq | hq
                      · subst hq
                        omega
                      · have := mem1 q hq
                        omega
                    · rw [List.map_cons, List.pairwise_cons]
                      refine ⟨?_, pw1⟩
                      intro b hbmem
                      obtain ⟨q, hq, rfl⟩ := List.mem_map.mp hbmem
                      have := mem1 q hq
                      omega
                | none =>
                    have hmod : (rb.next_expected_seq + 1) % u64Mod =
                        rb.next_expected_seq + 1 := Nat.mod_eq_of_lt (by omega)
                    have hA : (rb.getNext).2 =
                        { rb with
                          next_expected_seq := (rb.next_expected_seq + 1) % u64Mod
                          total_gaps := rb.total_gaps + 1 } := by
                      rw [getNext_gap_miss hg h0 h1]
                    have hB : (rb.getNext).1 = none := by rw [getNext_gap_miss hg h0 h1]
                    rw [hA, hB]
                    simp only [Option.toList, List.nil_append]
                    have hrecnx : ({ rb with
                        next_expected_seq := (rb.next_expected_seq + 1) % u64Mod
                        total_gaps := rb.total_gaps + 1 } :
                        ReorderingBuffer).next_expected_seq = rb.next_expected_seq + 1 := hmod
                    have hb' : ({ rb with
                        next_expected_seq := (rb.next_expected_seq + 1) % u64Mod
                        total_gaps := rb.total_gaps + 1 } :
                        ReorderingBuffer).next_expected_seq + 2 * ops.length < u64Mod := by
                      rw [hrecnx]
                      omega
                    obtain ⟨k1, m1, m2, mem1, pw1⟩ := ih
                      { rb with
                        next_expected_seq := (rb.next_expected_seq + 1) % u64Mod
                        total_gaps := rb.total_gaps + 1 }
                      hkm hb'
                    refine ⟨k1, by omega, by omega, ?_, pw1⟩
                    intro q hq
                    have := mem1 q hq
                    omega

end SatVis

namespace SatVis

/-- Amended C5: as long as `next_expected_seq` cannot wrap around the
64-bit space during the trace (start value plus twice the number of
operations stays below 2^64), no sequence number is ever released more
than once: the released sequence numbers are pairwise distinct. -/
theorem claim_released_seqs_distinct_no_wrap (s : Nat) (ops : List RBOp)
    (h : s + 2 * ops.length < u64Mod) :
    ((((ReorderingBuffer.init s).run ops).2.map Packet.sequence_number).Pairwise
      (fun a b => a ≠ b)) := by
  have hinit : (ReorderingBuffer.init s).next_expected_seq = s := by
    show s % u64Mod = s
    exact Nat.mod_eq_of_lt (by omega)
  have hb : (ReorderingBuffer.init s).next_expected_seq + 2 * ops.length < u64Mod := by
    rw [hinit]
    exact h
  have hmain := run_releases_increasing ops (ReorderingBuffer.init s) keyMatch_nil hb
  exact hmain.2.2.2.2.imp (fun hlt => Nat.ne_of_lt hlt)

/-- Witness for the amended C5 at a two-operation trace. -/
theorem claim_released_seqs_distinct_no_wrap_witness :
    (0 + 2 * ([RBOp.opInsert (mkPacket 0 Priority.BULK 0), RBOp.opGetNext] :
      List RBOp).length < u64Mod) ∧
    ((((ReorderingBuffer.init 0).run
        [RBOp.opInsert (mkPacket 0 Priority.BULK 0), RBOp.opGetNext]).2.map
      Packet.sequence_number).Pairwise (fun a b => a ≠ b)) :=
  ⟨by decide, claim_released_seqs_distinct_no_wrap 0 _ (by decide)⟩

end SatVis

namespace SatVis

/-! ### The router's priority order -/

lemma gtOp_eq_true_iff (a b : Packet) :
    Packet.gtOp a b = true ↔
      (b.priority.rank < a.priority.rank ∨
        (b.priority.rank = a.priority.rank ∧ b.sequence_number < a.sequence_number)) := by
  obtain ⟨sa, pa, xa, da, la⟩ := a
  obtain ⟨sb, pb, xb, db, lb⟩ := b
  cases pa <;> cases pb <;>
    simp [Packet.gtOp, Priority.code, Priority.rank]

lemma gtOp_eq_false_iff (a b : Packet) :
    Packet.gtOp a b = false ↔ dispatchLE a b := by
  have ht := gtOp_eq_true_iff a b
  constructor
  · intro hf
    have hnot : ¬ (b.priority.rank < a.priority.rank ∨
        (b.priority.rank = a.priority.rank ∧ b.sequence_number < a.sequence_number)) := by
      intro hc
      have := ht.mpr hc
      rw [hf] at this
      cases this
    simp only [dispatchLE]
    omega
  · intro hle
    cases hv : Packet.gtOp a b
    · rfl
    · have := ht.mp hv
      simp only [dispatchLE] at hle
      omega

lemma gtOp_irrefl (a : Packet) : Packet.gtOp a a = false := by
  rw [gtOp_eq_false_iff]
  exact Or.inr ⟨rfl, Nat.le_refl _⟩

lemma gtOp_true_asymm {a b : Packet} (h : Packet.gtOp a b = true) :
    Packet.gtOp b a = false := by
  rw [gtOp_eq_false_iff]
  have := (gtOp_eq_true_iff a b).mp h
  simp only [dispatchLE]
  omega

lemma gtOp_false_trans {a b c : Packet} (h1 : Packet.gtOp a b = false)
    (h2 : Packet.gtOp b c = false) : Packet.gtOp a c = false := by
  rw [gtOp_eq_false_iff] at *
  simp only [dispatchLE] at *
  omega

lemma pqExtract_nil_iff : ∀ l : List Packet, pqExtract l = none ↔ l = [] := by
  intro l
  cases l with
  | nil => simp [pqExtract]
  | cons p rest =>
      simp only [pqExtract]
      cases h : pqExtract rest with
      | none => simp
      | some mr =>
          obtain ⟨m, r⟩ := mr
          by_cases hgt : Packet.gtOp p m = true
      
          · simp [hgt]
          · simp [hgt]

lemma pqExtract_cons (p : Packet) (rest : List Packet) :
    ∃ m r, pqExtract (p :: rest) = some (m, r) := by
  cases h : pqExtract rest with
  | none => exact ⟨p, [], by simp [pqExtract, h]⟩
  | some mr =>
      obtain ⟨m, r⟩ := mr
      by_cases hgt : Packet.gtOp p m = true
      · exact ⟨m, p :: r, by simp [pqExtract, h, hgt]⟩
      · exact ⟨p, rest, by simp [pqExtract, h, hgt]⟩

/-- The extracted packet is one of the queue's packets, the remainder is a
permutation of the rest, and the extracted packet is minimal in the
dispatch order (no other queued packet should be dequeued before it). -/
lemma pqExtract_spec : ∀ (l : List Packet) (m : Packet) (r : List Packet),
    pqExtract l = some (m, r) →
    l.Perm (m :: r) ∧ ∀ x ∈ l, Packet.gtOp m x = false := by
  intro l
  induction l with
  | nil => intro m r h; simp [pqExtract] at h
  | cons p rest ih =>
      intro m r h
      cases hrest : pqExtract rest with
      | none =>
          have hre : rest = [] := (pqExtract_nil_iff rest).mp hrest
          subst hre
          simp [pqExtract] at h
          obtain ⟨hm, hr⟩ := h
          subst hm
          subst hr
          refine ⟨List.Perm.refl _, ?_⟩
          intro x hx
          rw [List.mem_singleton.mp hx]
          exact gtOp_irrefl _
      | some mr =>
          obtain ⟨m', r'⟩ := mr
          obtain ⟨hperm', hmin'⟩ := ih m' r' hrest
          simp only [pqExtract, hrest] at h
          by_cases hgt : Packet.gtOp p m' = true
          · rw [if_pos hgt] at h
            simp at h
            obtain ⟨hm, hr⟩ := h
            subst hm
            subst hr
            refine ⟨?_, ?_⟩
            · exact List.Perm.trans (hperm'.cons p) (List.Perm.swap _ _ _)
            · intro x hx
              rcases List.mem_cons.mp hx with hx | hx
              · rw [hx]
                exact gtOp_true_asymm hgt
              · exact hmin' x hx
          · rw [if_neg hgt] at h
            simp at h
            obtain ⟨hm, hr⟩ := h
            subst hm
            subst hr
            refine ⟨List.Perm.refl _, ?_⟩
            intro x hx
            have hpm : Packet.gtOp p m' = false := by
              cases hv : Packet.gtOp p m'
              · rfl
              · exact absurd hv hgt
            rcases List.mem_cons.mp hx with hx | hx
            · rw [hx]
              exact gtOp_irrefl _
            · exact gtOp_false_trans hpm (hmin' x hx)

end SatVis

namespace SatVis

/-- Draining a queue of known length with repeated `dequeue` calls returns
some packet on every call; the returned packets are a permutation of the
queue's contents and come out in non-decreasing dispatch order. -/
lemma dequeueIter_drain : ∀ (k : Nat) (r : PriorityRouter) (idx : Nat),
    (r.queues idx).length = k →
    ∃ outs : List Packet,
      (r.dequeueIter idx k).1 = outs.map some ∧
      outs.Perm (r.queues idx) ∧
      outs.Pairwise dispatchLE := by
  intro k
  induction k with
  | zero =>
      intro r idx h
      refine ⟨[], rfl, ?_, List.Pairwise.nil⟩
      rw [List.length_eq_zero.mp h]
  | succ n ih =>
      intro r idx h
      cases hq : r.queues idx with
      | nil =>
          rw [hq] at h
          simp at h
      | cons p rest =>
          rw [hq] at h
          obtain ⟨m, rr, hex⟩ := pqExtract_cons p rest
          obtain ⟨hperm, hmin⟩ := pqExtract_spec (p :: rest) m rr hex
          have hdq : r.dequeue idx = (some m,
              { r with
                queues := fun i => if i = idx then rr else r.queues i
                queue_sizes := fun i =>
                  if i = idx then r.queue_sizes i - 1 else r.queue_sizes i }) := by
            simp only [PriorityRouter.dequeue, hq, hex]
          have hdq1 : (r.dequeue idx).1 = some m := by rw [hdq]
          have hdq2 : (r.dequeue idx).2 =
              { r with
                queues := fun i => if i = idx then rr else r.queues i
                queue_sizes := fun i =>
                  if i = idx then r.queue_sizes i - 1 else r.queue_sizes i } := by
            rw [hdq]
          have hq' : (({ r with
                queues := fun i => if i = idx then rr else r.queues i
                queue_sizes := fun i =>
                  if i = idx then r.queue_sizes i - 1 else r.queue_sizes i } :
              PriorityRouter)).queues idx = rr := by simp
          have hlen : rr.length = n := by
            have hle := hperm.length_eq
            simp only [List.length_cons] at hle h
            omega
          have hlen' : ((({ r with
                queues := fun i => if i = idx then rr else r.queues i
                queue_sizes := fun i =>
                  if i = idx then r.queue_sizes i - 1 else r.queue_sizes i } :
              PriorityRouter)).queues idx).length = n := by
            rw [hq']
            exact hlen
          obtain ⟨outs', ho1, ho2, ho3⟩ := ih
            { r with
              queues := fun i => if i = idx then rr else r.queues i
              queue_sizes := fun i =>
                if i = idx then r.queue_sizes i - 1 else r.queue_sizes i }
            idx hlen'
          rw [hq'] at ho2
          refine ⟨m :: outs', ?_, ?_, ?_⟩
          · show (r.dequeue idx).1 :: (((r.dequeue idx).2).dequeueIter idx n).1 =
              (m :: outs').map some
            rw [hdq1, hdq2, ho1]
            rfl
          · exact (ho2.cons m).trans hperm.symm
          · refine List.pairwise_cons.mpr ⟨?_, ho3⟩
            intro x hx
            have hxr : x ∈ rr := ho2.subset hx
            have hxl : x ∈ p :: rest :=
              hperm.mem_iff.mpr (List.mem_cons_of_mem _ hxr)
            exact (gtOp_eq_false_iff m x).mp (hmin x hxl)

/-- Routing a batch of packets that all share one destination prepends them
(in reverse arrival order) onto that destination's queue and leaves the
queue count unchanged. -/
lemma routeAll_queues : ∀ (ps : List Packet) (r : PriorityRouter) (d : Nat),
    (∀ p ∈ ps, p.destination_id = d) →
    (r.routeAll ps).num_queues = r.num_queues ∧
    (r.routeAll ps).queues (lockIndexOf r.num_queues d) =
      ps.reverse ++ r.queues (lockIndexOf r.num_queues d) := by
  intro ps
  induction ps with
  | nil =>
      intro r d _
      exact ⟨rfl, by simp [PriorityRouter.routeAll]⟩
  | cons p ps ih =>
      intro r d hd
      have hpd : p.destination_id = d := hd p (List.mem_cons_self _ _)
      have hAll : r.routeAll (p :: ps) = (r.route p).routeAll ps := rfl
      have hnq : (r.route p).num_queues = r.num_queues := rfl
      obtain ⟨h1, h2⟩ := ih (r.route p) d (fun q hq => hd q (List.mem_cons_of_mem _ hq))
      constructor
      · rw [hAll, h1, hnq]
      · rw [hAll]
        rw [hnq] at h2
        rw [h2]
        have hqp : (r.route p).queues (lockIndexOf r.num_queues d) =
            p :: r.queues (lockIndexOf r.num_queues d) := by
          simp [PriorityRouter.route, hpd]
        rw [hqp]
        simp

end SatVis

namespace SatVis

/-- Claim C3: the router's per-queue dispatch order is CONTROL first, then
REAL_TIME, then STREAMING, then BULK, with ties broken by ascending
sequence number.  First conjunct: Scenario C — five packets with sequence
numbers 10..14 and priorities BULK, CONTROL, REAL_TIME, CONTROL, STREAMING
routed to one queue are dequeued in the order 11, 13, 12, 14, 10.  Second
conjunct: in general, routing any batch of packets with a common
destination into a fresh router and then draining that destination's queue
returns every packet exactly once (some packet on each call, the outputs a
permutation of the inputs) in non-decreasing dispatch order. -/
theorem claim_router_priority_order :
    ((((PriorityRouter.init 1).routeAll
        [mkPacket 10 Priority.BULK 0, mkPacket 11 Priority.CONTROL 0,
         mkPacket 12 Priority.REAL_TIME 0, mkPacket 13 Priority.CONTROL 0,
         mkPacket 14 Priority.STREAMING 0]).dequeueIter 0 5).1 =
      [some (mkPacket 11 Priority.CONTROL 0), some (mkPacket 13 Priority.CONTROL 0),
       some (mkPacket 12 Priority.REAL_TIME 0), some (mkPacket 14 Priority.STREAMING 0),
       some (mkPacket 10 Priority.BULK 0)]) ∧
    (∀ (n d : Nat) (ps : List Packet), 0 < n →
      (∀ p ∈ ps, p.destination_id = d) →
      ∃ outs : List Packet,
        (((PriorityRouter.init n).routeAll ps).dequeueIter (lockIndexOf n d) ps.length).1 =
          outs.map some ∧
        outs.Perm ps ∧
        outs.Pairwise dispatchLE) := by
  constructor
  · decide
  · intro n d ps _ hd
    obtain ⟨h1, h2⟩ := routeAll_queues ps (PriorityRouter.init n) d hd
    have hnq : (PriorityRouter.init n).num_queues = n := rfl
    rw [hnq] at h2
    have hinitq : (PriorityRouter.init n).queues (lockIndexOf n d) = [] := rfl
    rw [hinitq, List.append_nil] at h2
    have hlen : (((PriorityRouter.init n).routeAll ps).queues (lockIndexOf n d)).length =
        ps.length := by
      rw [h2, List.length_reverse]
    obtain ⟨outs, ho1, ho2, ho3⟩ :=
      dequeueIter_drain ps.length ((PriorityRouter.init n).routeAll ps) (lockIndexOf n d) hlen
    refine ⟨outs, ho1, ?_, ho3⟩
    rw [h2] at ho2
    exact ho2.trans (List.reverse_perm ps)

/-- Witness for C3's general part: one BULK packet routed to destination 0
of a single-queue router is returned by the first dequeue. -/
theorem claim_router_priority_order_witness :
    ∃ outs : List Packet,
      (((PriorityRouter.init 1).routeAll [mkPacket 5 Priority.BULK 0]).dequeueIter
        (lockIndexOf 1 0) ([mkPacket 5 Priority.BULK 0] : List Packet).length).1 =
        outs.map some ∧
      outs.Perm [mkPacket 5 Priority.BULK 0] ∧
      outs.Pairwise dispatchLE :=
  claim_router_priority_order.2 1 0 [mkPacket 5 Priority.BULK 0] (by decide) (by decide)

end SatVis
